import Mathlib

/-!
Verification of the conformer-matching pipeline of `match_minima.py`
(benchmarkff, `03_analysis/match_minima.py`).

Shallow embedding conventions:
* Floating-point energies and RMSD distances are modelled as exact rationals
  (`ℚ`); `NaN` (the missing-value sentinel `np.nan`) is modelled as `none` in
  `Option ℚ`, with arithmetic on options propagating `none` like IEEE NaN.
* A Python run-time error (`ValueError` from `min([])`, `IndexError` from
  out-of-range list indexing) is modelled by returning `none` from an
  `Option`-valued function; `Option.some` is normal termination.
* The external geometry oracle `oechem.OERMSD` (called with `automorph=True,
  heavyOnly=False, overlay=True`) is an uninterpreted parameter
  `dist : ℕ → ℕ → ℚ` acting on abstract conformer geometry handles.
* Python generators of molecules are modelled as lists together with the
  position reached so far (the unconsumed suffix).
-/

namespace MatchMinima

/-- One SD (structure-data) tagged field of a conformer.  The value is stored
already parsed as a rational (the Python code stores the string and applies
`float` at the call site in `match_minima`). -/
structure SDPair where
  tag : String
  val : ℚ
deriving DecidableEq, Repr

/-- One conformer: an abstract geometry handle (fed to the external RMSD
oracle) plus its SD data pairs. -/
structure Conf where
  gid : ℕ
  sd : List SDPair
deriving DecidableEq, Repr

/-- One multi-conformer molecule, identified by its title string. -/
structure Molecule where
  title : String
  confs : List Conf
deriving DecidableEq, Repr

/-- One configured method: label, structure file, energy SD tag
(one line of the input file of `read_check_input`). -/
structure MethodCfg where
  label : String
  sdfile : String
  sdtag : String
deriving DecidableEq, Repr

/-- The per-molecule record stored in `mol_dict` by `match_minima`:
parallel per-method lists of raw energies, index mappings and (for absent
molecules) reference conformer counts. -/
structure MolRecord where
  energies : List (List (Option ℚ))
  indices : List (List (Option ℤ))
  ref_nconfs : List ℕ
deriving DecidableEq, Repr

/-- Python `needle in hay` on character lists (substring containment). -/
def listContains : List Char → List Char → Bool
  | hay, needle =>
    needle.isPrefixOf hay ||
      match hay with
      | [] => false
      | _ :: t => listContains t needle

/-- Python `s.lower()`, modelled character-wise on the string's character
list. -/
def lowerChars (s : String) : List Char :=
  s.data.map Char.toLower

/-- The tag test of `get_sd_list`: `taglabel.lower() in x.GetTag().lower()`. -/
def tagMatch (taglabel : String) (p : SDPair) : Bool :=
  listContains (lowerChars p.tag) (lowerChars taglabel)

/-- Translation of `get_sd_list(mol, taglabel)`: for each conformer, the value
of the first SD pair whose tag contains `taglabel` case-insensitively; a
conformer with no matching pair contributes nothing (the inner `for`/`break`
loop appends at most one value per conformer). -/
def get_sd_list (mol : Molecule) (taglabel : String) : List ℚ :=
  mol.confs.filterMap (fun conf => (conf.sd.find? (tagMatch taglabel)).map SDPair.val)

/-- Python `min(l)` on a list: `none` models the `ValueError` on an empty
list. -/
def pymin {α : Type} [LinearOrder α] : List α → Option α
  | [] => none
  | x :: xs => some (xs.foldl min x)

/-- Index of the first element satisfying `p` (Python
`[i for i, j in enumerate(l) if p(j)][0]`). -/
def firstIdxWhere {α : Type} (p : α → Bool) : List α → Option ℕ
  | [] => none
  | a :: t => if p a then some 0 else (firstIdxWhere p t).map (· + 1)

/-- First index of the minimum value (Python `l.index(min(l))`, and
`np.argmin` on a NaN-free array); `0` on the empty list, on which Python
raises instead (callers establish non-emptiness). -/
def idxOfMin {α : Type} [LinearOrder α] (l : List α) : ℕ :=
  match pymin l with
  | none => 0
  | some m => (firstIdxWhere (fun x => x = m) l).getD 0

/-- Python list indexing `l[i]` with negative-index semantics; `none` models
the `IndexError`. -/
def pyGet {α : Type} (l : List α) (i : ℤ) : Option α :=
  if 0 ≤ i then l.get? i.toNat
  else if (-i).toNat ≤ l.length then l.get? (l.length - (-i).toNat) else none

/-- Subtraction of matched energies with NaN propagation (`none` is NaN). -/
def osub : Option ℚ → Option ℚ → Option ℚ
  | some x, some y => some (x - y)
  | _, _ => none

/-- The body of the `for ref_conf in rmol.GetConfs()` loop of
`compare_two_mols`, applied to the list `thisR_allQ` of RMSDs of one
reference conformer against every query conformer:

* outer `none` models the `ValueError` raised by `min([])` when the query
  molecule has no conformers;
* `some none` is the "no match within cutoff" sentinel (`None` in Python);
* `some (some k)` is the matched query conformer index `k`. -/
def compareOne (qds : List ℚ) (cutoff : ℚ) : Option (Option ℕ) :=
  match pymin qds with
  | none => none
  | some m =>
    match firstIdxWhere (fun x => x = m) qds with
    | none => none
    | some k => if qds.getD k 0 ≤ cutoff then some (some k) else some none

/-- The main loop of `compare_two_mols`: iterate `compareOne` over the
reference conformers, propagating the run-time error. -/
def compareConfs (qmol : Molecule) (dist : ℕ → ℕ → ℚ) (cutoff : ℚ) :
    List Conf → Option (List (Option ℕ))
  | [] => some []
  | rc :: rest =>
    match compareOne (qmol.confs.map (fun qc => dist rc.gid qc.gid)) cutoff,
        compareConfs qmol dist cutoff rest with
    | some v, some vs => some (v :: vs)
    | _, _ => none

/-- Translation of `compare_two_mols(rmol, qmol, rmsd_cutoff)`: for each
reference conformer, the lowest-index query conformer attaining the minimal
RMSD, or `none` (Python `None`) if that minimum exceeds the cutoff. -/
def compare_two_mols (rmol qmol : Molecule) (dist : ℕ → ℕ → ℚ) (cutoff : ℚ) :
    Option (List (Option ℕ)) :=
  compareConfs qmol dist cutoff rmol.confs

/-- The inner `for qmol in mols_query` loop of `match_minima`: scan the
unconsumed suffix of the query molecule stream for the first molecule whose
title equals `t`; on success return it together with the remainder of the
stream (the generator has consumed up to and including the match). `none`
means the stream is exhausted without a match. -/
def findQ : List Molecule → String → Option (Molecule × List Molecule)
  | [], _ => none
  | q :: rest, t => if q.title = t then some (q, rest) else findQ rest t

/-- Creation of a fresh `mol_dict` entry (`if mol_name not in mol_dict`);
Python dicts preserve insertion order, so a new key goes to the end. -/
def ensureKey (d : List (String × MolRecord)) (t : String) :
    List (String × MolRecord) :=
  if d.any (fun p => p.1 = t) then d else d ++ [(t, ⟨[], [], []⟩)]

/-- In-place update of the record stored under key `t`. -/
def modifyKey (d : List (String × MolRecord)) (t : String)
    (f : MolRecord → MolRecord) : List (String × MolRecord) :=
  d.map (fun p => if p.1 = t then (p.1, f p.2) else p)

/-- Lookup in the modelled `mol_dict`. -/
def lookupRec (d : List (String × MolRecord)) (t : String) : Option MolRecord :=
  (d.find? (fun p => p.1 = t)).map Prod.snd

/-- The body of the `for rmol in mols_ref` loop of `match_minima` for one
reference molecule.  State: the accumulated `mol_dict` and the unconsumed
suffix of the query molecule generator (reset to `fullQ`, a fresh
`read_mols`, only when the title search fails).  The three branches are:
molecule absent (`-2` rows, NaN energies), query file equal to reference file
(`-1` rows), and a genuine `compare_two_mols` match.  Outer `none` propagates
the `min([])` error of `compare_two_mols` on a conformer-free query
molecule. -/
def matchStep (fullQ : List Molecule) (sdtag : String) (selfRef : Bool)
    (dist : ℕ → ℕ → ℚ) (cutoff : ℚ)
    (st : List (String × MolRecord) × List Molecule) (rmol : Molecule) :
    Option (List (String × MolRecord) × List Molecule) :=
  let n := rmol.confs.length
  let d := ensureKey st.1 rmol.title
  match findQ st.2 rmol.title with
  | none =>
    some (modifyKey d rmol.title (fun r =>
      { r with
        indices := r.indices ++ [List.replicate n (some (-2))],
        energies := r.energies ++ [List.replicate n none],
        ref_nconfs := r.ref_nconfs ++ [n] }), fullQ)
  | some (qmol, rest) =>
    let enes := (get_sd_list qmol sdtag).map some
    if selfRef then
      some (modifyKey d rmol.title (fun r =>
        { r with
          energies := r.energies ++ [enes],
          indices := r.indices ++ [List.replicate n (some (-1))] }), rest)
    else
      match compare_two_mols rmol qmol dist cutoff with
      | none => none
      | some inds =>
        some (modifyKey d rmol.title (fun r =>
          { r with
            energies := r.energies ++ [enes],
            indices := r.indices ++ [inds.map (Option.map (fun k : ℕ => (k : ℤ)))] }), rest)

/-- One iteration of the outer `for ff_label, ff_dict in in_dict.items()`
loop: reload the reference molecules, open the query file, and process every
reference molecule with `matchStep`. -/
def runMethod (fs : String → List Molecule) (dist : ℕ → ℕ → ℚ) (cutoff : ℚ)
    (sdf_ref : String) (d0 : List (String × MolRecord)) (cfg : MethodCfg) :
    Option (List (String × MolRecord)) :=
  ((fs sdf_ref).foldlM
    (matchStep (fs cfg.sdfile) cfg.sdtag (cfg.sdfile = sdf_ref) dist cutoff)
    (d0, fs cfg.sdfile)).map Prod.fst

/-- Translation of `match_minima(in_dict, rmsd_cutoff)`.  `fs` models the
file system (`read_mols` applied to a file name), `dist` the external RMSD
oracle.  `none` models a run-time error (empty configuration, or an
uncaught `ValueError` from `compare_two_mols`). -/
def match_minima (fs : String → List Molecule) (dist : ℕ → ℕ → ℚ)
    (cutoff : ℚ) (in_dict : List MethodCfg) :
    Option (List (String × MolRecord)) :=
  match in_dict with
  | [] => none
  | cfg0 :: _ => in_dict.foldlM (runMethod fs dist cutoff cfg0.sdfile) []

/-- One entry of the inner loop of `extract_matches`: decide the matched
energy for reference position `j` whose stored index is `conf_index`.
Outer `none` models the `IndexError` of an out-of-range energy lookup;
the inner option is the matched energy (`none` = NaN).  Branch order follows
the Python `if`/`elif` chain exactly. -/
def matchEne (ene_i : List (Option ℚ)) (j : ℕ) (conf_index : Option ℤ) :
    Option (Option ℚ) :=
  match conf_index with
  | none => some none
  | some ci =>
    if ci = -2 then some none
    else if ene_i.length = 0 then some none
    else if ci = -1 then ene_i.get? j
    else pyGet ene_i ci

/-- The `for j, conf_index in enumerate(file_indices)` loop of
`extract_matches`, carrying the running position `j`. -/
def extractRowAux (ene_i : List (Option ℚ)) : ℕ → List (Option ℤ) →
    Option (List (Option ℚ))
  | _, [] => some []
  | j, ci :: rest =>
    match matchEne ene_i j ci, extractRowAux ene_i (j + 1) rest with
    | some v, some vs => some (v :: vs)
    | _, _ => none

/-- One file's row of `extract_matches`: resolve a stored index-mapping row
against that file's raw energy row. -/
def extract_row (ene_i : List (Option ℚ)) (file_indices : List (Option ℤ)) :
    Option (List (Option ℚ)) :=
  extractRowAux ene_i 0 file_indices

/-- The per-molecule body of `extract_matches`: pair the `i`th index row with
the `i`th energy row (`energy_array[i]`; a missing energy row is the
`IndexError` case, modelled `none`). -/
def energiesMatched : List (List (Option ℚ)) → List (List (Option ℤ)) →
    Option (List (List (Option ℚ)))
  | _, [] => some []
  | [], _ :: _ => none
  | e :: es, idx :: idxs =>
    match extract_row e idx, energiesMatched es idxs with
    | some v, some vs => some (v :: vs)
    | _, _ => none

/-- Translation of `extract_matches(mol_dict)`: the `energies_matched` table
added for every molecule of the dictionary. -/
def extract_matches (d : List (String × MolRecord)) :
    Option (List (String × List (List (Option ℚ)))) :=
  d.mapM (fun p => (energiesMatched p.2.energies p.2.indices).map
    (fun em => (p.1, em)))

/-- Per-position missing count of `calc_rel_ene`
(`sum(np.isnan([file_enes[j] for file_enes in mol_array]))`): the number of
method rows whose matched energy at position `j` is NaN. -/
def missingCnt (mol_array : List (List (Option ℚ))) (j : ℕ) : ℕ :=
  (mol_array.map (fun file_enes => file_enes.getD j none)).countP
    (fun x => x.isNone)

/-- The list `nan_cnt` of `calc_rel_ene`, one count per reference conformer
position. -/
def nanCounts (mol_array : List (List (Option ℚ))) (ref_nconfs : ℕ) : List ℕ :=
  (List.range ref_nconfs).map (missingCnt mol_array)

/-- `np.where(np.asarray(nan_cnt) == cnt)[0]`: the positions whose missing
count equals `c`, in increasing order. -/
def whereEq (nan_cnt : List ℕ) (c : ℕ) : List ℕ :=
  (List.range nan_cnt.length).filter (fun j => nan_cnt.getD j 0 = c)

/-- The `while no_nan_conf_inds.size == 0 and cnt < ref_nconfs` loop of
`calc_rel_ene`: scan thresholds `cnt = 0, 1, …` (the second argument is the
remaining number of iterations, initially `ref_nconfs`) until some position
has exactly that missing count. -/
def scanLoop (nan_cnt : List ℕ) : ℕ → ℕ → List ℕ
  | _, 0 => []
  | cnt, fuel + 1 =>
    let inds := whereEq nan_cnt cnt
    if inds = [] then scanLoop nan_cnt (cnt + 1) fuel else inds

/-- `np.argmin` on an array that may contain NaN: NumPy returns the index of
the first NaN when one is present, otherwise the first index attaining the
minimum. -/
def npArgminOpt (l : List (Option ℚ)) : ℕ :=
  match firstIdxWhere (fun x => x.isNone) l with
  | some k => k
  | none => idxOfMin (l.filterMap id)

/-- The reference-conformer selection of `calc_rel_ene` for one molecule:
the index `z = lowest_conf_idx`.  Follows the source exactly: count NaNs per
position, scan thresholds, then `np.argmin` over the reference row restricted
to the candidate positions, falling back to `nan_cnt.index(min(nan_cnt))`
when every scanned threshold is empty. -/
def lowestConfIdx (mol_array : List (List (Option ℚ))) : ℕ :=
  let row0 := mol_array.headD []
  let ref_nconfs := row0.length
  let nan_cnt := nanCounts mol_array ref_nconfs
  let inds := scanLoop nan_cnt 0 ref_nconfs
  if inds ≠ [] then
    let leastNanEs := inds.map (fun j => row0.getD j none)
    inds.getD (npArgminOpt leastNanEs) 0
  else
    idxOfMin nan_cnt

/-- The relative-energy row of `calc_rel_ene`:
`[(fileE[i] - fileE[z]) for i in range(len(fileE))]`, with NaN propagation.
An out-of-range `z` (a Python `IndexError`, unreachable in the pipeline,
where every row has the reference length) is absorbed as NaN by `getD`. -/
def relRow (fileE : List (Option ℚ)) (z : ℕ) : List (Option ℚ) :=
  (List.range fileE.length).map
    (fun i => osub (fileE.getD i none) (fileE.getD z none))

/-- The per-molecule work of `calc_rel_ene`: the chosen index `z` and every
method row rebased to position `z`. -/
def calc_rel_ene_mol (mol_array : List (List (Option ℚ))) :
    List (List (Option ℚ)) × ℕ :=
  let z := lowestConfIdx mol_array
  (mol_array.map (fun fileE => relRow fileE z), z)

/-- Translation of `calc_rel_ene(matched_enes)`: relative energies and chosen
reference-conformer indices for every molecule. -/
def calc_rel_ene (matched_enes : List (List (List (Option ℚ)))) :
    List (List (List (Option ℚ))) × List ℕ :=
  (matched_enes.map (fun m => (calc_rel_ene_mol m).1),
   matched_enes.map (fun m => (calc_rel_ene_mol m).2))

/-- One row of `calc_rms_error`, up to the final `np.sqrt`: subtract the
reference row, square, delete position `z` (`np.delete`), drop NaNs, and take
the population mean (`np.mean`, which yields NaN — here `none` — on an empty
array).  The code's RMS error is the square root of this value; the square
root (a real-valued, strictly monotone map fixing `0` and sending NaN to NaN)
is left outside the rational model. -/
def calc_rms_error_sq_row (filelist ref_row : List (Option ℚ)) (z : ℕ) :
    Option ℚ :=
  let errs := List.zipWith osub filelist ref_row
  let sqrs := errs.map (fun e => e.map (fun x => x ^ 2))
  let sqrs2 := sqrs.eraseIdx z
  let keep := sqrs2.filterMap id
  if keep.length = 0 then none else some (keep.sum / keep.length)

/-- Translation of `calc_rms_error(rel_energies, lowest_conf_indices)` up to
the final square root: the mean squared deviation of every method row from
the reference row (`mol_array[0]`) of its molecule. -/
def calc_rms_error_sq (rel_energies : List (List (List (Option ℚ))))
    (lowest_conf_indices : List ℕ) : List (List (Option ℚ)) :=
  (List.range rel_energies.length).map (fun i =>
    let mol_array := rel_energies.getD i []
    mol_array.map (fun filelist =>
      calc_rms_error_sq_row filelist (mol_array.headD [])
        (lowest_conf_indices.getD i 0)))

/-! ### Spec-side definitions

The following definitions are written from the specification's words, to be
compared with the source translations above (refinement claims C4, C5, C6).
-/

/-- Modelled from the spec, §4.3: the five-case resolution table for one
reference position `j` ("NoMatchWithinCutoff yields missing; MoleculeAbsent
yields missing; an empty raw-energy sequence despite a match yields missing;
SelfReference at position j yields rawEnergies[j]; Matched(idx) yields
rawEnergies[idx]").  Sentinels: `none` = NoMatchWithinCutoff, `-2` =
MoleculeAbsent, `-1` = SelfReference, `k ≥ 0` = Matched k. -/
def resolveSpec (raw : List (Option ℚ)) (j : ℕ) : Option ℤ → Option ℚ
  | none => none
  | some ci =>
    if ci = -2 then none
    else if raw = [] then none
    else if ci = -1 then (raw.getD j none)
    else raw.getD ci.toNat none

/-- Well-formedness of one stored index-mapping entry, as presupposed by the
spec's resolution table: the entry is one of the four MatchOutcome sentinels,
and an entry that indexes the raw-energy row does so in range whenever that
row is non-empty. -/
def wfEntry (ene : List (Option ℚ)) (j : ℕ) : Option ℤ → Bool
  | none => true
  | some ci =>
    ci = -2 ∨ (ci = -1 ∧ (ene = [] ∨ j < ene.length)) ∨
      (0 ≤ ci ∧ (ene = [] ∨ ci.toNat < ene.length))

/-- Modelled from the spec, §4.5: the squared deviation of one position, or
`none` when the position must be excluded because either value is missing. -/
def specErrSq (f r : List (Option ℚ)) (j : ℕ) : Option ℚ :=
  match f.getD j none, r.getD j none with
  | some a, some b => some ((a - b) ^ 2)
  | _, _ => none

/-- Modelled from the spec, §4.5: the population mean of
`(relative_method[j] - relative_reference[j])^2` over the positions
`j ≠ z` where neither value is missing, `none` when that set is empty. -/
def specMse (f r : List (Option ℚ)) (z : ℕ) : Option ℚ :=
  let vals := (List.range f.length).filterMap
    (fun j => if j = z then none else specErrSq f r j)
  if vals.length = 0 then none else some (vals.sum / vals.length)

/-- Modelled from the spec, §4.4 (amended): two-stage reference-conformer
selection.  Stage 1: the candidate set is the set of positions whose missing
count equals the smallest count (provided that smallest count is below the
scan bound `referenceConformerCount`; otherwise fall back to the first
position of globally minimal missing count).  Stage 2: among the candidates,
the first one whose reference-row energy is missing if any (NumPy argmin NaN
propagation — this clause is the amendment), else the one with the lowest
reference-row energy, earliest position on ties. -/
def specZ (mol_array : List (List (Option ℚ))) : ℕ :=
  let row0 := mol_array.headD []
  let n := row0.length
  let cnts := nanCounts mol_array n
  match pymin cnts with
  | none => 0
  | some m =>
    if m < n then
      let cands := (List.range n).filter (fun j => cnts.getD j 0 = m)
      match cands.find? (fun j => (row0.getD j none).isNone) with
      | some j => j
      | none =>
        cands.getD
          (idxOfMin (cands.map (fun j => (row0.getD j none).getD 0))) 0
    else idxOfMin cnts

/-! ### Concrete fixtures

A two-molecule, two-method configuration used by witnesses and
counterexamples: reference file `"r"` lists molecules `A, B`; query file
`"q"` lists the same molecules in the opposite order `B, A`. -/

/-- Example molecule `A` with one conformer tagged `qm = 1`. -/
def molA : Molecule := ⟨"A", [⟨0, [⟨"qm", 1⟩]⟩]⟩

/-- Example molecule `B` with one conformer tagged `qm = 2`. -/
def molB : Molecule := ⟨"B", [⟨1, [⟨"qm", 2⟩]⟩]⟩

/-- Example file system: file `"r"` holds `[A, B]`, file `"q"` holds
`[B, A]`. -/
def exFs : String → List Molecule := fun s =>
  if s = "r" then [molA, molB] else if s = "q" then [molB, molA] else []

/-- Example configuration: the reference method reads `"r"`, the query
method reads `"q"`, both with energy tag `qm`. -/
def exCfg : List MethodCfg := [⟨"m0", "r", "qm"⟩, ⟨"m1", "q", "qm"⟩]

/-- Example distance oracle: every conformer pair is at distance `0`. -/
def exDist : ℕ → ℕ → ℚ := fun _ _ => 0

/-- The dictionary computed by `match_minima` on the example configuration:
molecule `B` is (wrongly) recorded absent from the query method. -/
def exDict : List (String × MolRecord) :=
  [("A", ⟨[[some 1], [some 1]], [[some (-1)], [some 0]], []⟩),
   ("B", ⟨[[some 2], [none]], [[some (-1)], [some (-2)]], [1]⟩)]

/-- The per-molecule index-mapping length invariant of C9: every stored
index row of a reference molecule's record has that molecule's conformer
count as its length. -/
def IndicesLenInv (molsRef : List Molecule)
    (d : List (String × MolRecord)) : Prop :=
  ∀ rmol ∈ molsRef, ∀ r, lookupRec d rmol.title = some r →
    ∀ row ∈ r.indices, row.length = rmol.confs.length

/-! ### Helper lemmas -/

lemma foldl_min_spec {α : Type} [LinearOrder α] (xs : List α) :
    ∀ x : α, (xs.foldl min x) ∈ x :: xs ∧ ∀ a ∈ x :: xs, xs.foldl min x ≤ a := by
  induction xs with
  | nil => intro x; simp
  | cons y ys ih =>
    intro x
    have h := ih (min x y)
    rw [List.foldl_cons]
    constructor
    · rcases List.mem_cons.mp h.1 with h1 | h1
      · rcases min_choice x y with hc | hc <;> rw [h1, hc] <;> simp
      · simp [h1]
    · intro a ha
      have hx : ys.foldl min (min x y) ≤ min x y := h.2 _ (by simp)
      rcases List.mem_cons.mp ha with ha | ha
      · rw [ha]; exact le_trans hx (min_le_left x y)
      · rcases List.mem_cons.mp ha with ha | ha
        · rw [ha]; exact le_trans hx (min_le_right x y)
        · exact h.2 a (List.mem_cons_of_mem _ ha)

lemma pymin_spec {α : Type} [LinearOrder α] {l : List α} {m : α}
    (h : pymin l = some m) : m ∈ l ∧ ∀ x ∈ l, m ≤ x := by
  cases l with
  | nil => simp [pymin] at h
  | cons x xs =>
    simp only [pymin, Option.some.injEq] at h
    subst h
    exact foldl_min_spec xs x

lemma pymin_isSome {α : Type} [LinearOrder α] {l : List α} (h : l ≠ []) :
    ∃ m, pymin l = some m := by
  cases l with
  | nil => exact absurd rfl h
  | cons x xs => exact ⟨_, rfl⟩

lemma pymin_eq_none {α : Type} [LinearOrder α] {l : List α}
    (h : pymin l = none) : l = [] := by
  cases l with
  | nil => rfl
  | cons x xs => simp [pymin] at h

lemma firstIdxWhere_eq_some {α : Type} {p : α → Bool} :
    ∀ {l : List α} {k : ℕ}, firstIdxWhere p l = some k →
      (∃ a, l.get? k = some a ∧ p a = true) ∧
        ∀ i < k, ∀ b, l.get? i = some b → p b = false := by
  intro l
  induction l with
  | nil => intro k h; simp [firstIdxWhere] at h
  | cons a t ih =>
    intro k h
    by_cases hp : p a
    · simp [firstIdxWhere, hp] at h
      subst h
      exact ⟨⟨a, rfl, hp⟩, by omega⟩
    · simp [firstIdxWhere, hp] at h
      obtain ⟨k', hk', rfl⟩ := h
      obtain ⟨⟨b, hb, hpb⟩, hbefore⟩ := ih hk'
      refine ⟨⟨b, hb, hpb⟩, ?_⟩
      intro i hi c hc
      cases i with
      | zero =>
        simp at hc
        subst hc
        simpa using hp
      | succ i' => exact hbefore i' (by omega) c hc

lemma firstIdxWhere_eq_none {α : Type} {p : α → Bool} :
    ∀ {l : List α}, firstIdxWhere p l = none ↔ ∀ a ∈ l, p a = false := by
  intro l
  induction l with
  | nil => simp [firstIdxWhere]
  | cons a t ih =>
    by_cases hp : p a <;> simp [firstIdxWhere, hp, ih]

lemma firstIdxWhere_isSome_of_mem {α : Type} {p : α → Bool} {l : List α} {a : α}
    (ha : a ∈ l) (hp : p a = true) : ∃ k, firstIdxWhere p l = some k := by
  cases h : firstIdxWhere p l with
  | some k => exact ⟨k, rfl⟩
  | none =>
    rw [firstIdxWhere_eq_none] at h
    rw [h a ha] at hp
    cases hp

lemma firstIdxWhere_map {α β : Type} (f : α → β) (p : β → Bool) (l : List α) :
    firstIdxWhere p (l.map f) = firstIdxWhere (fun a => p (f a)) l := by
  induction l with
  | nil => rfl
  | cons a t ih => by_cases hp : p (f a) <;> simp [firstIdxWhere, hp, ih]

lemma find?_eq_firstIdxWhere {α : Type} (p : α → Bool) (l : List α) :
    l.find? p = (firstIdxWhere p l).bind l.get? := by
  induction l with
  | nil => rfl
  | cons a t ih =>
    by_cases hp : p a
    · simp [List.find?_cons, hp, firstIdxWhere]
    · simp only [List.find?_cons, hp, cond_false, firstIdxWhere,
        Bool.false_eq_true, if_false, ih]
      cases firstIdxWhere p t <;> simp

lemma find?_append_lemma {α : Type} (p : α → Bool) (l₁ l₂ : List α) :
    (l₁ ++ l₂).find? p = match l₁.find? p with
      | some a => some a
      | none => l₂.find? p := by
  induction l₁ with
  | nil => simp
  | cons a t ih =>
    by_cases hp : p a <;> simp [List.find?_cons, hp, ih]

lemma filterMap_eq_map_of_isSome {α β : Type} (g : α → Option β) (d : β) :
    ∀ (l : List α), (∀ a ∈ l, (g a).isSome) →
      l.filterMap g = l.map (fun a => (g a).getD d) := by
  intro l
  induction l with
  | nil => intro _; rfl
  | cons a t ih =>
    intro h
    have ha : (g a).isSome := h a (by simp)
    obtain ⟨v, hv⟩ := Option.isSome_iff_exists.mp ha
    simp [List.filterMap_cons, hv, ih (fun x hx => h x (by simp [hx]))]

/-- Full characterization of one `compare_two_mols` loop iteration on a
non-empty RMSD list. -/
lemma compareOne_spec (qds : List ℚ) (cutoff : ℚ) (hq : qds ≠ []) :
    ∃ e m, compareOne qds cutoff = some e ∧ pymin qds = some m ∧
      (∀ x ∈ qds, m ≤ x) ∧
      (e = none ↔ cutoff < m) ∧
      (∀ i, e = some i → i < qds.length ∧ qds.get? i = some m ∧
        ∀ i' < i, qds.get? i' ≠ some m) := by
  obtain ⟨m, hm⟩ := pymin_isSome hq
  obtain ⟨hmem, hle⟩ := pymin_spec hm
  obtain ⟨k, hk⟩ := firstIdxWhere_isSome_of_mem (p := fun x => x = m) hmem
    (by simp)
  obtain ⟨⟨a, hget, hpa⟩, hbefore⟩ := firstIdxWhere_eq_some hk
  have ha : a = m := by simpa using hpa
  subst ha
  have hklen : k < qds.length := (List.get?_eq_some.mp hget).1
  have hgetD : qds.getD k 0 = a := by
    rw [List.getD_eq_get?, hget]; rfl
  by_cases hcut : qds.getD k 0 ≤ cutoff
  · refine ⟨some k, a, ?_, hm, hle, ?_, ?_⟩
    · simp only [compareOne, hm, hk]; rw [if_pos hcut]
    · constructor
      · intro h; cases h
      · intro h
        rw [hgetD] at hcut
        exact absurd hcut (not_le.mpr h)
    · intro i hi
      cases hi
      refine ⟨hklen, hget, ?_⟩
      intro i' hi' hcontra
      exact absurd (by simpa using hpa ▸ rfl : (a = a) = true)
        (by simpa using hbefore i' hi' a hcontra)
  · refine ⟨none, a, ?_, hm, hle, ?_, ?_⟩
    · simp only [compareOne, hm, hk]; rw [if_neg hcut]
    · rw [hgetD] at hcut
      simp [not_le.mp hcut]
    · intro i hi; cases hi

/-- `compareConfs` succeeds on every reference conformer list as soon as the
query molecule has at least one conformer. -/
lemma compareConfs_total (qmol : Molecule) (dist : ℕ → ℕ → ℚ) (cutoff : ℚ)
    (hq : qmol.confs ≠ []) :
    ∀ l : List Conf, ∃ out, compareConfs qmol dist cutoff l = some out := by
  intro l
  induction l with
  | nil => exact ⟨[], rfl⟩
  | cons rc rest ih =>
    obtain ⟨out, hout⟩ := ih
    have hne : qmol.confs.map (fun qc => dist rc.gid qc.gid) ≠ [] := by
      simpa using hq
    obtain ⟨e, m, he, -⟩ := compareOne_spec _ cutoff hne
    exact ⟨e :: out, by simp [compareConfs, he, hout]⟩

/-- Success of `compareConfs` determines the length and every entry. -/
lemma compareConfs_get? (qmol : Molecule) (dist : ℕ → ℕ → ℚ) (cutoff : ℚ) :
    ∀ (l : List Conf) (out : List (Option ℕ)),
      compareConfs qmol dist cutoff l = some out →
      out.length = l.length ∧
        ∀ k rc, l.get? k = some rc → ∃ e, out.get? k = some e ∧
          compareOne (qmol.confs.map (fun qc => dist rc.gid qc.gid)) cutoff
            = some e := by
  intro l
  induction l with
  | nil =>
    intro out h
    simp only [compareConfs, Option.some.injEq] at h
    subst h
    exact ⟨rfl, by intro k rc h; simp at h⟩
  | cons rc0 rest ih =>
    intro out h
    simp only [compareConfs] at h
    cases hA : compareOne (qmol.confs.map fun qc => dist rc0.gid qc.gid) cutoff with
    | none => rw [hA] at h; cases h
    | some v =>
      cases hB : compareConfs qmol dist cutoff rest with
      | none => rw [hA, hB] at h; cases h
      | some vs =>
        rw [hA, hB] at h
        simp only [Option.some.injEq] at h
        subst h
        obtain ⟨hlen, hent⟩ := ih vs hB
        refine ⟨by simp [hlen], ?_⟩
        intro k rc hk
        cases k with
        | zero =>
          simp only [List.get?] at hk
          cases hk
          exact ⟨v, rfl, hA⟩
        | succ k' => exact hent k' rc hk

/-! ### Claim C3 -/

/-- C3: for every reference conformer list of length `M`, every non-empty
query conformer list and every cutoff, `compare_two_mols` returns a list of
`M` entries; each entry is the null sentinel or the lowest query index
attaining the minimum distance for that reference conformer; the null
sentinel is emitted exactly when the minimum distance strictly exceeds the
cutoff (a distance equal to the cutoff is accepted); with cutoff `0` and a
nonnegative distance oracle (RMSDs are nonnegative) only a zero-distance
candidate is accepted; and no returned index lies outside `[0, N)`. -/
theorem C3_geometry_matcher (rmol qmol : Molecule) (dist : ℕ → ℕ → ℚ)
    (cutoff : ℚ) (hq : qmol.confs ≠ []) (hd : ∀ a b, 0 ≤ dist a b) :
    ∃ l, compare_two_mols rmol qmol dist cutoff = some l ∧
      l.length = rmol.confs.length ∧
      ∀ k rc, rmol.confs.get? k = some rc →
        ∃ e m, l.get? k = some e ∧
          pymin (qmol.confs.map (fun qc => dist rc.gid qc.gid)) = some m ∧
          (∀ x ∈ qmol.confs.map (fun qc => dist rc.gid qc.gid), m ≤ x) ∧
          (e = none ↔ cutoff < m) ∧
          (∀ i, e = some i → i < qmol.confs.length ∧
            (qmol.confs.map (fun qc => dist rc.gid qc.gid)).get? i = some m ∧
            ∀ i' < i,
              (qmol.confs.map (fun qc => dist rc.gid qc.gid)).get? i' ≠ some m) ∧
          (cutoff = 0 → ∀ i, e = some i →
            (qmol.confs.map (fun qc => dist rc.gid qc.gid)).get? i = some 0) := by
  obtain ⟨l, hl⟩ := compareConfs_total qmol dist cutoff hq rmol.confs
  obtain ⟨hlen, hent⟩ := compareConfs_get? qmol dist cutoff rmol.confs l hl
  refine ⟨l, hl, hlen, ?_⟩
  intro k rc hk
  obtain ⟨e, he, hone⟩ := hent k rc hk
  have hne : qmol.confs.map (fun qc => dist rc.gid qc.gid) ≠ [] := by
    simpa using hq
  obtain ⟨e', m, hone', hmin, hle, hnull, hidx⟩ := compareOne_spec _ cutoff hne
  have hee : e = e' := by
    rw [hone] at hone'
    exact Option.some.inj hone'
  subst hee
  have hm0 : 0 ≤ m := by
    obtain ⟨hmem, -⟩ := pymin_spec hmin
    obtain ⟨qc, -, rfl⟩ := List.mem_map.mp hmem
    exact hd _ _
  refine ⟨e, m, he, hmin, hle, hnull, ?_, ?_⟩
  · intro i hi
    obtain ⟨hilen, hval, hfirst⟩ := hidx i hi
    exact ⟨by simpa using hilen, hval, hfirst⟩
  · intro hc i hi
    obtain ⟨-, hval, -⟩ := hidx i hi
    have hnn : ¬ cutoff < m := by
      intro hlt
      rw [← hnull] at hlt
      rw [hi] at hlt
      cases hlt
    have : m = 0 := le_antisymm (by rw [hc] at hnn; exact not_lt.mp hnn) hm0
    rw [this] at hval
    exact hval

/-- Witness for C3 at a concrete input: two reference conformers, three
query conformers, distances chosen so that one position matches within the
cutoff and the other is rejected. -/
theorem C3_geometry_matcher_witness :
    ∃ l, compare_two_mols ⟨"m", [⟨10, []⟩, ⟨11, []⟩]⟩
        ⟨"m", [⟨0, []⟩, ⟨1, []⟩, ⟨2, []⟩]⟩
        (fun a b => if a = 10 then (if b = 1 then 1/2 else 2) else 3)
        (1/2) = some l ∧
      l.length = (⟨"m", [⟨10, []⟩, ⟨11, []⟩]⟩ : Molecule).confs.length ∧
      ∀ k rc, (⟨"m", [⟨10, []⟩, ⟨11, []⟩]⟩ : Molecule).confs.get? k = some rc →
        ∃ e m,
          l.get? k = some e ∧
          pymin (((⟨"m", [⟨0, []⟩, ⟨1, []⟩, ⟨2, []⟩]⟩ : Molecule)).confs.map
            (fun qc => (fun a b => if a = 10 then (if b = 1 then (1:ℚ)/2 else 2) else 3) rc.gid qc.gid)) = some m ∧
          (∀ x ∈ ((⟨"m", [⟨0, []⟩, ⟨1, []⟩, ⟨2, []⟩]⟩ : Molecule)).confs.map
            (fun qc => (fun a b => if a = 10 then (if b = 1 then (1:ℚ)/2 else 2) else 3) rc.gid qc.gid), m ≤ x) ∧
          (e = none ↔ (1:ℚ)/2 < m) ∧
          (∀ i, e = some i → i < ((⟨"m", [⟨0, []⟩, ⟨1, []⟩, ⟨2, []⟩]⟩ : Molecule)).confs.length ∧
            (((⟨"m", [⟨0, []⟩, ⟨1, []⟩, ⟨2, []⟩]⟩ : Molecule)).confs.map
              (fun qc => (fun a b => if a = 10 then (if b = 1 then (1:ℚ)/2 else 2) else 3) rc.gid qc.gid)).get? i = some m ∧
            ∀ i' < i,
              (((⟨"m", [⟨0, []⟩, ⟨1, []⟩, ⟨2, []⟩]⟩ : Molecule)).confs.map
                (fun qc => (fun a b => if a = 10 then (if b = 1 then (1:ℚ)/2 else 2) else 3) rc.gid qc.gid)).get? i' ≠ some m) ∧
          ((1:ℚ)/2 = 0 → ∀ i, e = some i →
            (((⟨"m", [⟨0, []⟩, ⟨1, []⟩, ⟨2, []⟩]⟩ : Molecule)).confs.map
              (fun qc => (fun a b => if a = 10 then (if b = 1 then (1:ℚ)/2 else 2) else 3) rc.gid qc.gid)).get? i = some 0) :=
  C3_geometry_matcher ⟨"m", [⟨10, []⟩, ⟨11, []⟩]⟩ ⟨"m", [⟨0, []⟩, ⟨1, []⟩, ⟨2, []⟩]⟩
    (fun a b => if a = 10 then (if b = 1 then 1/2 else 2) else 3) (1/2)
    (by decide)
    (by intro a b; dsimp only; split <;> [skip; norm_num] <;> split <;> norm_num)

/-! ### Claim C10 -/

/-- C10: `compare_two_mols` requires a non-empty query conformer set.  With a
conformer-free query molecule and at least one reference conformer the Python
code raises `ValueError` from `min([])` (modelled as `none`) instead of
returning the null sentinel per position; with at least one query conformer
it is total. -/
theorem C10_empty_query_crash (rmol qmol : Molecule) (dist : ℕ → ℕ → ℚ)
    (cutoff : ℚ) (hr : rmol.confs ≠ []) :
    (qmol.confs = [] → compare_two_mols rmol qmol dist cutoff = none) ∧
    (qmol.confs ≠ [] → ∃ l, compare_two_mols rmol qmol dist cutoff = some l ∧
      l.length = rmol.confs.length) := by
  constructor
  · intro hqe
    obtain ⟨rc, rest, hrc⟩ := List.exists_cons_of_ne_nil hr
    unfold compare_two_mols
    rw [hrc]
    simp only [compareConfs, hqe, List.map_nil]
    rfl
  · intro hq
    obtain ⟨l, hl⟩ := compareConfs_total qmol dist cutoff hq rmol.confs
    exact ⟨l, hl, (compareConfs_get? qmol dist cutoff rmol.confs l hl).1⟩

/-- Witness for C10: one reference conformer; the conformer-free query
molecule crashes, the one-conformer query molecule succeeds. -/
theorem C10_empty_query_crash_witness :
    (compare_two_mols ⟨"m", [⟨0, []⟩]⟩ ⟨"m", []⟩ (fun _ _ => 1) 1 = none) ∧
    (∃ l, compare_two_mols ⟨"m", [⟨0, []⟩]⟩ ⟨"m", [⟨5, []⟩]⟩ (fun _ _ => 1) 1
        = some l ∧ l.length = (⟨"m", [⟨0, []⟩]⟩ : Molecule).confs.length) :=
  ⟨(C10_empty_query_crash ⟨"m", [⟨0, []⟩]⟩ ⟨"m", []⟩ (fun _ _ => 1) 1
      (by decide)).1 rfl,
   (C10_empty_query_crash ⟨"m", [⟨0, []⟩]⟩ ⟨"m", [⟨5, []⟩]⟩ (fun _ _ => 1) 1
      (by decide)).2 (by decide)⟩

/-! ### Claim C7 -/

/-- C7 (code bug): `get_sd_list` promises in its docstring an `N`-length list
for a molecule with `N` conformers, and the spec says "one value per query
conformer, order-preserving".  But a conformer with no SD pair matching the
tag is silently skipped (the inner loop appends nothing), so here a
2-conformer molecule yields a 1-element energy list — misaligning conformer
indices downstream.  The first conjunct evaluates the failing input; the
remaining conjuncts confirm the intended behavior (case-insensitive
substring match, first matching pair wins) on conformers that do carry the
tag. -/
theorem C7_get_sd_list_skips_conformer :
    get_sd_list ⟨"mol1", [⟨0, [⟨"QM Energy", 5⟩]⟩, ⟨1, [⟨"Other", 3⟩]⟩]⟩
        "qm energy" = [5] ∧
    (⟨"mol1", [⟨0, [⟨"QM Energy", 5⟩]⟩, ⟨1, [⟨"Other", 3⟩]⟩]⟩ :
        Molecule).confs.length = 2 ∧
    get_sd_list ⟨"x", [⟨0, [⟨"a", 1⟩, ⟨"QM", 2⟩, ⟨"qm2", 3⟩]⟩]⟩ "qm" = [2] := by
  refine ⟨?_, rfl, ?_⟩ <;> decide

/-! ### Claim C1 -/

/-- C1 (amended): after relative-energy computation, the relative energy at
the chosen reference position `z` equals `0` in every method row whose
matched energy at `z` is present; a row whose matched energy at `z` is the
missing value has missing (NaN), not `0`, at position `z` (see the
counterexample). -/
theorem C1_relative_zero (mol_array : List (List (Option ℚ))) (i : ℕ)
    (row : List (Option ℚ)) (hrow : mol_array.get? i = some row)
    (hz : lowestConfIdx mol_array < row.length) (e : ℚ)
    (he : row.getD (lowestConfIdx mol_array) none = some e) :
    ((calc_rel_ene_mol mol_array).1.getD i []).getD
      (lowestConfIdx mol_array) none = some 0 := by
  have h1 : (calc_rel_ene_mol mol_array).1.get? i
      = some (relRow row (lowestConfIdx mol_array)) := by
    simp only [calc_rel_ene_mol]
    rw [List.get?_map, hrow]
    rfl
  have h2 : (relRow row (lowestConfIdx mol_array)).get?
      (lowestConfIdx mol_array)
      = some (osub (row.getD (lowestConfIdx mol_array) none)
          (row.getD (lowestConfIdx mol_array) none)) := by
    unfold relRow
    rw [List.get?_map, List.get?_range hz]
    rfl
  have h3 : (calc_rel_ene_mol mol_array).1.getD i []
      = relRow row (lowestConfIdx mol_array) := by
    rw [List.getD_eq_get?, h1]
    rfl
  rw [h3, List.getD_eq_get?, h2, he]
  simp [osub]

/-- Witness for C1 at a concrete input with no missing values
(`z = 0`, the lowest reference energy). -/
theorem C1_relative_zero_witness :
    ((calc_rel_ene_mol [[some 1, some 2], [some 3, some 4]]).1.getD 1 []).getD
      (lowestConfIdx [[some 1, some 2], [some 3, some 4]]) none = some 0 :=
  C1_relative_zero [[some 1, some 2], [some 3, some 4]] 1 [some 3, some 4]
    (by decide) (by decide) 3 (by decide)

/-- Counterexample for C1 as frozen: for the molecule with matched energies
`[[1, 2], [NaN, NaN]]` the chosen reference position is `z = 0`, and the
second method's relative energy at `z` is `NaN − NaN = NaN`, not `0` — the
claim's parenthetical "including rows whose matched energy at position z is
the missing value" is false on the code. -/
theorem C1_counterexample :
    ((calc_rel_ene_mol [[some 1, some 2], [none, none]]).1.getD 1 []).getD
        ((calc_rel_ene_mol [[some 1, some 2], [none, none]]).2) none ≠ some 0 ∧
    (([[some (1:ℚ), some 2], [none, none]]).getD 1 []).getD
        ((calc_rel_ene_mol [[some 1, some 2], [none, none]]).2) none = none := by
  constructor
  · decide
  · decide

/-! ### Claims C5 and C8: RMS error -/

lemma range_filterMap_getD {α : Type} : ∀ (t : List (Option α)),
    (List.range t.length).filterMap (fun j => t.getD j none) = t.filterMap id := by
  intro t
  induction t with
  | nil => rfl
  | cons a t ih =>
    simp only [List.getD_eq_getElem?_getD] at ih
    cases a <;>
      simp [List.range_succ_eq_map, List.filterMap_cons, List.filterMap_map,
        Function.comp_def, List.getD_eq_getElem?_getD, ih]

lemma eraseIdx_filterMap_range {α : Type} :
    ∀ (L : List (Option α)) (z : ℕ), z < L.length →
      (L.eraseIdx z).filterMap id =
        (List.range L.length).filterMap
          (fun j => if j = z then none else L.getD j none) := by
  intro L
  induction L with
  | nil => intro z hz; simp at hz
  | cons a t ih =>
    intro z hz
    cases z with
    | zero =>
      have h1 : ∀ j : ℕ,
          (if j + 1 = 0 then none else (a :: t).getD (j + 1) none)
            = t.getD j none := by
        intro j; simp
      simp only [List.eraseIdx_cons_zero, List.length_cons,
        List.range_succ_eq_map, List.filterMap_cons, if_pos rfl,
        List.filterMap_map, Function.comp_def]
      rw [show (fun j => if Nat.succ j = 0 then none
            else (a :: t).getD (Nat.succ j) none)
          = (fun j => t.getD j none) from funext fun j => h1 j]
      exact (range_filterMap_getD t).symm
    | succ z' =>
      have hz' : z' < t.length := by simpa using hz
      have h1 : (fun j => if Nat.succ j = z' + 1 then none
            else (a :: t).getD (Nat.succ j) none)
          = (fun j => if j = z' then none else t.getD j none) := by
        funext j
        by_cases hj : j = z' <;> simp [hj]
      have h0 : (if (0 : ℕ) = z' + 1 then none else (a :: t).getD 0 none)
          = a := by simp
      cases a with
      | none =>
        simp only [List.eraseIdx_cons_succ, List.filterMap_cons,
          List.length_cons, List.range_succ_eq_map, h0,
          List.filterMap_map, Function.comp_def, h1]
        exact ih z' hz'
      | some v =>
        simp only [List.eraseIdx_cons_succ, List.filterMap_cons,
          List.length_cons, List.range_succ_eq_map, h0,
          List.filterMap_map, Function.comp_def, h1, id]
        rw [ih z' hz']

lemma zipsq_getD :
    ∀ (f r : List (Option ℚ)) (j : ℕ), j < f.length → f.length = r.length →
      ((List.zipWith osub f r).map (fun e => e.map (fun x => x ^ 2))).getD
        j none = specErrSq f r j := by
  intro f
  induction f with
  | nil => intro r j hj _; simp at hj
  | cons a f ih =>
    intro r j hj hlen
    cases r with
    | nil => simp at hlen
    | cons b r =>
      cases j with
      | zero => cases a <;> cases b <;> simp [specErrSq, osub]
      | succ j' =>
        have hj' : j' < f.length := by simpa using hj
        have hlen' : f.length = r.length := by simpa using hlen
        have : specErrSq (a :: f) (b :: r) (j' + 1) = specErrSq f r j' := by
          simp [specErrSq]
        rw [this]
        simpa using ih r j' hj' hlen'

/-- The core refinement underlying C5: the source computation (subtract,
square, `np.delete` position `z`, drop NaNs, `np.mean`) equals the spec's
population mean over the included positions. -/
lemma calc_rms_eq_specMse (f r : List (Option ℚ)) (z : ℕ)
    (hlen : f.length = r.length) (hz : z < f.length) :
    calc_rms_error_sq_row f r z = specMse f r z := by
  have hL : ((List.zipWith osub f r).map
      (fun e => e.map (fun x => x ^ 2))).length = f.length := by
    simp [hlen]
  have hzL : z < ((List.zipWith osub f r).map
      (fun e => e.map (fun x => x ^ 2))).length := by rw [hL]; exact hz
  have keepEq : (((List.zipWith osub f r).map
        (fun e => e.map (fun x => x ^ 2))).eraseIdx z).filterMap id
      = (List.range f.length).filterMap
          (fun j => if j = z then none else specErrSq f r j) := by
    rw [eraseIdx_filterMap_range _ z hzL, hL]
    apply List.filterMap_congr
    intro j hj
    by_cases hjz : j = z
    · simp [hjz]
    · rw [if_neg hjz, if_neg hjz,
        zipsq_getD f r j (List.mem_range.mp hj) hlen]
  simp only [calc_rms_error_sq_row, specMse]
  rw [keepEq]

/-- C5 (confirmed, stated at the mean-of-squares level): the RMS error of
`calc_rms_error` is the square root of this quantity, and both the code and
the spec apply the same square root on top, so the claim reduces to: the mean
of the squared deviations is the population mean over exactly the positions
`j ≠ z` where neither relative energy is missing, and the empty included set
yields the missing marker (`np.mean([])` is NaN, hence so is the RMS). -/
theorem C5_rms_error (f r : List (Option ℚ)) (z : ℕ)
    (hlen : f.length = r.length) (hz : z < f.length) :
    calc_rms_error_sq_row f r z = specMse f r z :=
  calc_rms_eq_specMse f r z hlen hz

/-- Witness for C5: the spec's own worked example (§8): relative energies
`[0, −2, −1]` against reference `[0, 1, 2]`, `z = 0`; both sides give mean
square `9` (RMS `3`). -/
theorem C5_rms_error_witness :
    calc_rms_error_sq_row [some 0, some (-2), some (-1)]
        [some 0, some 1, some 2] 0
      = specMse [some 0, some (-2), some (-1)] [some 0, some 1, some 2] 0 ∧
    calc_rms_error_sq_row [some 0, some (-2), some (-1)]
        [some 0, some 1, some 2] 0 = some 9 :=
  ⟨C5_rms_error [some 0, some (-2), some (-1)] [some 0, some 1, some 2] 0
      (by decide) (by decide),
   by simp [calc_rms_error_sq_row, osub]; norm_num⟩

/-- C8 (amended): the RMS error of a method row compared against that same
row is exactly `0` whenever at least one position other than `z` carries a
present value; when every such position is missing (for instance a
single-conformer molecule) the result is the missing marker, not `0` (see
the counterexample). -/
theorem C8_self_rms_zero (row : List (Option ℚ)) (z j : ℕ)
    (hz : z < row.length) (hj : j < row.length) (hjz : j ≠ z)
    (hsome : (row.getD j none).isSome) :
    calc_rms_error_sq_row row row z = some 0 := by
  rw [calc_rms_eq_specMse row row z rfl hz]
  obtain ⟨a, ha⟩ := Option.isSome_iff_exists.mp hsome
  have hmem : (0 : ℚ) ∈ (List.range row.length).filterMap
      (fun j' => if j' = z then none else specErrSq row row j') := by
    rw [List.mem_filterMap]
    refine ⟨j, List.mem_range.mpr hj, ?_⟩
    rw [if_neg hjz]
    unfold specErrSq
    rw [ha]
    simp
  have hall : ∀ v ∈ (List.range row.length).filterMap
      (fun j' => if j' = z then none else specErrSq row row j'), v = 0 := by
    intro v hv
    rw [List.mem_filterMap] at hv
    obtain ⟨j', -, hj'⟩ := hv
    by_cases hj'z : j' = z
    · rw [if_pos hj'z] at hj'; cases hj'
    · rw [if_neg hj'z] at hj'
      unfold specErrSq at hj'
      cases hg : row.getD j' none with
      | none => rw [hg] at hj'; cases hj'
      | some b =>
        rw [hg] at hj'
        simp only [Option.some.injEq] at hj'
        rw [← hj']
        ring
  have hne : ((List.range row.length).filterMap
      (fun j' => if j' = z then none else specErrSq row row j')).length ≠ 0 := by
    intro hlen0
    rw [List.length_eq_zero] at hlen0
    rw [hlen0] at hmem
    cases hmem
  simp only [specMse]
  rw [if_neg hne, List.sum_eq_zero hall]
  simp

/-- Witness for C8: a two-conformer row with both values present. -/
theorem C8_self_rms_zero_witness :
    calc_rms_error_sq_row [some 4, some 7] [some 4, some 7] 0 = some 0 :=
  C8_self_rms_zero [some 4, some 7] 0 1 (by decide) (by decide) (by decide)
    (by decide)

/-- Counterexample for C8 as frozen: a single-conformer molecule.  The chosen
reference index is `z = 0`; comparing the (only) method row against itself
deletes position `z`, leaving an empty set, whose `np.mean` is NaN — so the
RMS error is NaN (the square root of the missing marker), not "exactly 0". -/
theorem C8_counterexample :
    lowestConfIdx [[some (5:ℚ)]] = 0 ∧
    calc_rms_error_sq_row [some (5:ℚ)] [some 5] 0 = none := by
  constructor
  · decide
  · decide

/-! ### Claim C6: the resolver -/

lemma get?_eq_some_getD {α : Type} (l : List α) (j : ℕ) (d : α)
    (hj : j < l.length) : l.get? j = some (l.getD j d) := by
  rw [List.getD_eq_get?]
  cases h : l.get? j with
  | none =>
    rw [List.get?_eq_none] at h
    omega
  | some a => rfl

/-- On a well-formed entry, the `if`/`elif` chain of `extract_matches`
computes exactly the spec's five-case table value. -/
lemma matchEne_wf (ene : List (Option ℚ)) (j : ℕ) (ci : Option ℤ)
    (h : wfEntry ene j ci = true) :
    matchEne ene j ci = some (resolveSpec ene j ci) := by
  cases ci with
  | none => rfl
  | some ci =>
    have hp : ci = -2 ∨ (ci = -1 ∧ (ene = [] ∨ j < ene.length)) ∨
        (0 ≤ ci ∧ (ene = [] ∨ ci.toNat < ene.length)) := by
      simpa [wfEntry] using h
    rcases hp with hc | ⟨hc, hor⟩ | ⟨hc, hor⟩
    · simp [matchEne, resolveSpec, hc]
    · subst hc
      rcases hor with hnil | hj
      · subst hnil
        simp [matchEne, resolveSpec]
      · have hlen : ene.length ≠ 0 := by omega
        have hnil : ene ≠ [] := by
          intro hh; rw [hh] at hlen; exact hlen rfl
        simp [matchEne, resolveSpec, hlen, hnil, List.getElem?_eq_getElem hj]
    · have hne2 : ci ≠ -2 := by omega
      rcases hor with hnil | hj
      · subst hnil
        simp [matchEne, resolveSpec, hne2]
      · have hne1 : ci ≠ -1 := by omega
        have hlen : ene.length ≠ 0 := by omega
        have hnil : ene ≠ [] := by
          intro hh; rw [hh] at hlen; exact hlen rfl
        simp [matchEne, resolveSpec, hne1, hne2, hlen, hnil, pyGet, hc,
          List.getElem?_eq_getElem hj]

lemma extractRowAux_spec (ene : List (Option ℚ)) :
    ∀ (idxs : List (Option ℤ)) (j0 : ℕ),
      (∀ j < idxs.length, wfEntry ene (j0 + j) (idxs.getD j none) = true) →
      ∃ out, extractRowAux ene j0 idxs = some out ∧
        out.length = idxs.length ∧
        ∀ j ci, idxs.get? j = some ci →
          out.get? j = some (resolveSpec ene (j0 + j) ci) := by
  intro idxs
  induction idxs with
  | nil =>
    intro j0 _
    exact ⟨[], rfl, rfl, by intro j ci h; simp at h⟩
  | cons ci rest ih =>
    intro j0 hwf
    have h0 : wfEntry ene j0 ci = true := by
      have h := hwf 0 (by simp)
      simpa using h
    have hme := matchEne_wf ene j0 ci h0
    obtain ⟨out, hout, hlen, hget⟩ := ih (j0 + 1) (fun j hj => by
      have h := hwf (j + 1) (by simpa using hj)
      have e1 : (ci :: rest).getD (j + 1) none = rest.getD j none := rfl
      have e2 : j0 + (j + 1) = j0 + 1 + j := by omega
      rw [e1, e2] at h
      exact h)
    refine ⟨resolveSpec ene j0 ci :: out, ?_, by simp [hlen], ?_⟩
    · simp only [extractRowAux, hme, hout]
    · intro j ci' hj
      cases j with
      | zero =>
        simp only [List.get?] at hj
        cases hj
        simp
      | succ j' =>
        have h := hget j' ci' (by simpa using hj)
        have e2 : j0 + 1 + j' = j0 + (j' + 1) := by omega
        rw [e2] at h
        simpa using h

/-! ### Claim C6 theorem -/

/-- C6: for every well-formed index-mapping row and raw-energy row, the
resolver (`extract_matches`' inner loop) succeeds, produces one matched
energy per index-mapping entry (= per reference conformer), and each entry
follows exactly the spec's five-case table (`resolveSpec`): no-match and
molecule-absent sentinels and an empty raw-energy row yield missing;
the self-reference sentinel yields `rawEnergies[j]`; a matched index yields
`rawEnergies[idx]`. -/
theorem C6_resolver (ene : List (Option ℚ)) (idxs : List (Option ℤ))
    (hwf : ∀ j < idxs.length, wfEntry ene j (idxs.getD j none) = true) :
    ∃ out, extract_row ene idxs = some out ∧
      out.length = idxs.length ∧
      ∀ j ci, idxs.get? j = some ci →
        out.get? j = some (resolveSpec ene j ci) := by
  obtain ⟨out, h1, h2, h3⟩ := extractRowAux_spec ene idxs 0 (fun j hj => by
    simpa using hwf j hj)
  refine ⟨out, h1, h2, ?_⟩
  intro j ci h
  simpa using h3 j ci h

/-- Witness for C6 exercising all five table cases: self-reference at
position 0, a matched index, a no-match sentinel, and a molecule-absent
sentinel against a two-energy raw row. -/
theorem C6_resolver_witness :
    ∃ out, extract_row [some 10, some 20]
        [some (-1), some 1, none, some (-2)] = some out ∧
      out.length = ([some (-1), some (1:ℤ), none, some (-2)] :
        List (Option ℤ)).length ∧
      ∀ j ci, ([some (-1), some (1:ℤ), none, some (-2)] :
          List (Option ℤ)).get? j = some ci →
        out.get? j = some (resolveSpec [some 10, some 20] j ci) :=
  C6_resolver [some 10, some 20] [some (-1), some 1, none, some (-2)]
    (by decide)

/-! ### Claim C4: reference-conformer selection -/

lemma nanCounts_length (mol_array : List (List (Option ℚ))) (n : ℕ) :
    (nanCounts mol_array n).length = n := by
  simp [nanCounts]

lemma whereEq_mem (cnts : List ℕ) (c j : ℕ) :
    j ∈ whereEq cnts c ↔ j < cnts.length ∧ cnts.getD j 0 = c := by
  simp [whereEq, List.mem_filter, List.mem_range]

lemma whereEq_ne_nil {cnts : List ℕ} {m : ℕ} (hm : m ∈ cnts) :
    whereEq cnts m ≠ [] := by
  obtain ⟨j, hj⟩ := List.mem_iff_get?.mp hm
  have hjlen : j < cnts.length := (List.get?_eq_some.mp hj).1
  have hgd : cnts.getD j 0 = m := by
    rw [List.getD_eq_get?, hj]; rfl
  have hmem : j ∈ whereEq cnts m := (whereEq_mem cnts m j).mpr ⟨hjlen, hgd⟩
  intro h
  rw [h] at hmem
  cases hmem

lemma whereEq_nil_of_lt {cnts : List ℕ} {c m : ℕ}
    (hle : ∀ x ∈ cnts, m ≤ x) (hc : c < m) : whereEq cnts c = [] := by
  cases h : whereEq cnts c with
  | nil => rfl
  | cons j t =>
    exfalso
    have hj : j ∈ whereEq cnts c := by
      rw [h]; exact List.mem_cons_self j t
    rw [whereEq_mem] at hj
    have hmem : c ∈ cnts := by
      have hg := get?_eq_some_getD cnts j 0 hj.1
      rw [hj.2] at hg
      exact List.mem_iff_get?.mpr ⟨j, hg⟩
    exact absurd (hle c hmem) (by omega)

/-- The threshold-scanning `while` loop returns the positions of the minimal
missing-count `m` when `m` lies below the scan bound, and the empty list
otherwise. -/
lemma scanLoop_spec (cnts : List ℕ) (m : ℕ) (hmem : m ∈ cnts)
    (hle : ∀ x ∈ cnts, m ≤ x) :
    ∀ (fuel c : ℕ), c ≤ m →
      scanLoop cnts c fuel = if m < c + fuel then whereEq cnts m else [] := by
  intro fuel
  induction fuel with
  | zero =>
    intro c hc
    rw [if_neg (by omega)]
    rfl
  | succ fuel ih =>
    intro c hc
    rcases eq_or_lt_of_le hc with hceq | hclt
    · subst hceq
      simp only [scanLoop]
      rw [if_neg (whereEq_ne_nil hmem), if_pos (by omega)]
    · have hnil : whereEq cnts c = [] := whereEq_nil_of_lt hle hclt
      simp only [scanLoop]
      rw [if_pos hnil, ih (c + 1) (by omega)]
      have harith : c + 1 + fuel = c + (fuel + 1) := by omega
      rw [harith]

/-- NumPy `argmin` (NaN-propagating) over the image of `g`, resolved at the
candidate list, equals the amended spec's two-case selection. -/
lemma argmin_stage2 (cands : List ℕ) (g : ℕ → Option ℚ) :
    cands.getD (npArgminOpt (cands.map g)) 0 =
      match cands.find? (fun j => (g j).isNone) with
      | some j => j
      | none => cands.getD (idxOfMin (cands.map (fun j => (g j).getD 0))) 0 := by
  unfold npArgminOpt
  rw [firstIdxWhere_map]
  cases hfw : firstIdxWhere (fun a => (g a).isNone) cands with
  | some k =>
    obtain ⟨⟨a, ha, -⟩, -⟩ := firstIdxWhere_eq_some hfw
    rw [find?_eq_firstIdxWhere, hfw]
    simp only [Option.bind_eq_bind, Option.some_bind]
    rw [ha, List.getD_eq_get?, ha]
    rfl
  | none =>
    rw [find?_eq_firstIdxWhere, hfw]
    have hall : ∀ a ∈ cands, (g a).isSome := by
      intro a ha
      have h := firstIdxWhere_eq_none.mp hfw a ha
      rwa [Option.isNone_eq_false_iff] at h
    simp only [Option.bind_eq_bind, Option.none_bind]
    rw [List.filterMap_map]
    rw [show (id ∘ g) = g from rfl]
    rw [filterMap_eq_map_of_isSome g 0 cands hall]

/-- C4 (amended): the reference-conformer index computed by `calc_rel_ene`
equals the spec's two-stage rule with one amendment: among the candidate
positions of minimal missing-count, a candidate whose reference-row energy is
missing (NaN) is selected first when one exists (NumPy `argmin` propagates
NaN), instead of the candidate with lowest numeric reference energy;
everything else — the threshold scan up to `referenceConformerCount` and the
fallback to the first position of globally minimal missing-count — is as the
spec states.  The equality is total (no hypotheses). -/
theorem C4_reference_selection (mol_array : List (List (Option ℚ))) :
    lowestConfIdx mol_array = specZ mol_array := by
  have hlen : (nanCounts mol_array (mol_array.headD []).length).length
      = (mol_array.headD []).length := nanCounts_length _ _
  cases hmin : pymin (nanCounts mol_array (mol_array.headD []).length) with
  | none =>
    have hnil : nanCounts mol_array (mol_array.headD []).length = [] :=
      pymin_eq_none hmin
    have hn : (mol_array.headD []).length = 0 := by
      rw [← hlen, hnil]
      rfl
    simp only [lowestConfIdx, specZ, hn]
    rfl
  | some m =>
    obtain ⟨hmem, hle⟩ := pymin_spec hmin
    by_cases hmn : m < (mol_array.headD []).length
    · have hscan := scanLoop_spec _ m hmem hle
        ((mol_array.headD []).length) 0 (by omega)
      rw [if_pos (by omega)] at hscan
      have hne := whereEq_ne_nil hmem
      have hcands : whereEq (nanCounts mol_array (mol_array.headD []).length) m
          = (List.range (mol_array.headD []).length).filter
              (fun j => (nanCounts mol_array
                (mol_array.headD []).length).getD j 0 = m) := by
        unfold whereEq
        rw [hlen]
      simp only [lowestConfIdx, specZ, hmin, hscan, if_pos hmn]
      rw [hcands]
      rw [if_pos (hcands ▸ hne)]
      exact argmin_stage2 _ _
    · have hscan := scanLoop_spec _ m hmem hle
        ((mol_array.headD []).length) 0 (by omega)
      rw [if_neg (by omega)] at hscan
      simp only [lowestConfIdx, specZ, hmin, hscan, if_neg hmn, ne_eq,
        not_true_eq_false, if_false]

/-- Counterexample for C4 as frozen: matched energies
`[[1, NaN], [NaN, 5]]`.  Both positions have missing-count 1, so the
candidate set is `{0, 1}`; the claim picks position 0 (reference energy 1,
the lowest numeric value), but `np.argmin` returns the first NaN of the
reference row restricted to the candidates, so the code selects `z = 1`,
whose reference energy is missing. -/
theorem C4_counterexample :
    lowestConfIdx [[some 1, none], [none, some 5]] = 1 ∧
    missingCnt [[some (1:ℚ), none], [none, some 5]] 0
      = missingCnt [[some (1:ℚ), none], [none, some 5]] 1 ∧
    (([[some (1:ℚ), none], [none, some 5]]).headD []).getD 1 none = none ∧
    (([[some (1:ℚ), none], [none, some 5]]).headD []).getD 0 none = some 1 :=
  ⟨by decide, by decide, by decide, by decide⟩

/-! ### Claims C2 and C9: orchestrator lemmas -/

lemma findQ_eq_none {qs : List Molecule} {t : String}
    (h : ∀ q ∈ qs, q.title ≠ t) : findQ qs t = none := by
  induction qs with
  | nil => rfl
  | cons q rest ih =>
    have hq : q.title ≠ t := h q (List.mem_cons_self q rest)
    simp only [findQ, if_neg hq]
    exact ih (fun p hp => h p (List.mem_cons_of_mem q hp))

lemma findQ_none_find? {qs : List Molecule} {t : String}
    (h : findQ qs t = none) : qs.find? (fun x => x.title = t) = none := by
  induction qs with
  | nil => rfl
  | cons q rest ih =>
    by_cases hq : q.title = t
    · simp only [findQ, if_pos hq] at h
      cases h
    · simp only [findQ, if_neg hq] at h
      simp only [List.find?_cons, hq, decide_False, cond_false]
      exact ih h

lemma findQ_spec {qs : List Molecule} {t : String} {q : Molecule}
    {rest : List Molecule} (h : findQ qs t = some (q, rest)) :
    q.title = t ∧ qs.find? (fun x => x.title = t) = some q ∧
      ∃ pre, qs = pre ++ q :: rest ∧ ∀ p ∈ pre, p.title ≠ t := by
  induction qs generalizing q rest with
  | nil => cases h
  | cons q0 qs' ih =>
    by_cases hq0 : q0.title = t
    · simp only [findQ, if_pos hq0, Option.some.injEq, Prod.mk.injEq] at h
      obtain ⟨rfl, rfl⟩ := h
      refine ⟨hq0, ?_, [], rfl, by intro p hp; cases hp⟩
      simp [List.find?_cons, hq0]
    · simp only [findQ, if_neg hq0] at h
      obtain ⟨ht, hfind, pre, hsplit, hpre⟩ := ih h
      refine ⟨ht, ?_, q0 :: pre, by rw [hsplit]; rfl, ?_⟩
      · simp [List.find?_cons, hq0, hfind]
      · intro p hp
        rcases List.mem_cons.mp hp with hp | hp
        · rw [hp]; exact hq0
        · exact hpre p hp

lemma lookupRec_ensureKey (d : List (String × MolRecord)) (t : String) :
    lookupRec (ensureKey d t) t
      = some ((lookupRec d t).getD ⟨[], [], []⟩) := by
  unfold ensureKey
  by_cases h : d.any (fun p => p.1 = t)
  · rw [if_pos h]
    obtain ⟨p, hp, hpt⟩ := List.any_eq_true.mp h
    have hsome : (d.find? (fun p => p.1 = t)).isSome :=
      List.find?_isSome.mpr ⟨p, hp, hpt⟩
    obtain ⟨a, ha⟩ := Option.isSome_iff_exists.mp hsome
    unfold lookupRec
    rw [ha]
    rfl
  · rw [if_neg h]
    have hfind : d.find? (fun p => p.1 = t) = none := by
      rw [List.find?_eq_none]
      intro x hx hpx
      exact h (List.any_eq_true.mpr ⟨x, hx, hpx⟩)
    unfold lookupRec
    rw [find?_append_lemma, hfind]
    simp

lemma lookupRec_ensureKey_other (d : List (String × MolRecord)) (t t' : String)
    (h : t' ≠ t) : lookupRec (ensureKey d t) t' = lookupRec d t' := by
  unfold ensureKey
  by_cases hany : d.any (fun p => p.1 = t)
  · rw [if_pos hany]
  · rw [if_neg hany]
    unfold lookupRec
    rw [find?_append_lemma]
    cases hfind : d.find? (fun p => p.1 = t') with
    | some a => rfl
    | none =>
      simp [List.find?_cons, Ne.symm h]

lemma lookupRec_modifyKey_self (d : List (String × MolRecord)) (t : String)
    (f : MolRecord → MolRecord) :
    lookupRec (modifyKey d t f) t = (lookupRec d t).map f := by
  induction d with
  | nil => rfl
  | cons p d' ih =>
    by_cases hp : p.1 = t
    · simp [modifyKey, lookupRec, List.find?_cons, hp]
    · simp only [modifyKey, List.map_cons, if_neg hp]
      simp only [lookupRec, List.find?_cons, hp, decide_False, cond_false]
      simpa [modifyKey, lookupRec] using ih

lemma lookupRec_modifyKey_other (d : List (String × MolRecord)) (t t' : String)
    (f : MolRecord → MolRecord) (h : t' ≠ t) :
    lookupRec (modifyKey d t f) t' = lookupRec d t' := by
  induction d with
  | nil => rfl
  | cons p d' ih =>
    by_cases hp : p.1 = t
    · have hp' : ¬ p.1 = t' := by rw [hp]; exact Ne.symm h
      simp only [modifyKey, List.map_cons, if_pos hp]
      simp only [lookupRec, List.find?_cons, hp', decide_False, cond_false]
      simpa [modifyKey, lookupRec] using ih
    · simp only [modifyKey, List.map_cons, if_neg hp]
      by_cases hp' : p.1 = t'
      · simp [lookupRec, List.find?_cons, hp']
      · simp only [lookupRec, List.find?_cons, hp', decide_False, cond_false]
        simpa [modifyKey, lookupRec] using ih

lemma lookupRec_upd_self (d : List (String × MolRecord)) (t : String)
    (f : MolRecord → MolRecord) :
    lookupRec (modifyKey (ensureKey d t) t f) t
      = some (f ((lookupRec d t).getD ⟨[], [], []⟩)) := by
  rw [lookupRec_modifyKey_self, lookupRec_ensureKey]
  rfl

lemma lookupRec_upd_other (d : List (String × MolRecord)) (t t' : String)
    (f : MolRecord → MolRecord) (h : t' ≠ t) :
    lookupRec (modifyKey (ensureKey d t) t f) t' = lookupRec d t' := by
  rw [lookupRec_modifyKey_other _ _ _ _ h, lookupRec_ensureKey_other _ _ _ h]

/-- C2 (amended): the orchestrator searches for the reference molecule's
title only in the not-yet-consumed remainder of the query molecule stream
(the Python generator resumes after the previous successful match, and is
reset to the start of the file only after a failed search).  Within that
remainder the first title match wins, the matched molecule supplies the raw
energies, and the stream advances past it; only when no title match exists
in the remainder is the molecule recorded as absent, with index mapping
`[MoleculeAbsent] * referenceConformerCount` and energies
`[missing] * referenceConformerCount`, and the stream reset. -/
theorem C2_title_search (fullQ : List Molecule) (sdtag : String)
    (selfRef : Bool) (dist : ℕ → ℕ → ℚ) (cutoff : ℚ)
    (d : List (String × MolRecord)) (qs : List Molecule) (rmol : Molecule) :
    ((∀ q ∈ qs, q.title ≠ rmol.title) →
      ∃ st', matchStep fullQ sdtag selfRef dist cutoff (d, qs) rmol
          = some st' ∧
        st'.2 = fullQ ∧
        lookupRec st'.1 rmol.title = some
          ⟨((lookupRec d rmol.title).getD ⟨[], [], []⟩).energies ++
              [List.replicate rmol.confs.length none],
            ((lookupRec d rmol.title).getD ⟨[], [], []⟩).indices ++
              [List.replicate rmol.confs.length (some (-2))],
            ((lookupRec d rmol.title).getD ⟨[], [], []⟩).ref_nconfs ++
              [rmol.confs.length]⟩) ∧
    (∀ q, qs.find? (fun x => x.title = rmol.title) = some q →
      ∀ st', matchStep fullQ sdtag selfRef dist cutoff (d, qs) rmol
          = some st' →
        (∃ pre, qs = pre ++ q :: st'.2 ∧ ∀ p ∈ pre, p.title ≠ rmol.title) ∧
        ∃ idxRow, lookupRec st'.1 rmol.title = some
            ⟨((lookupRec d rmol.title).getD ⟨[], [], []⟩).energies ++
                [(get_sd_list q sdtag).map some],
              ((lookupRec d rmol.title).getD ⟨[], [], []⟩).indices ++ [idxRow],
              ((lookupRec d rmol.title).getD ⟨[], [], []⟩).ref_nconfs⟩ ∧
          (idxRow = List.replicate rmol.confs.length (some (-1)) ∨
            ∃ inds, compare_two_mols rmol q dist cutoff = some inds ∧
              idxRow = inds.map (Option.map (fun k : ℕ => (k : ℤ))))) := by
  constructor
  · intro h
    have hfq : findQ qs rmol.title = none := findQ_eq_none h
    refine ⟨(modifyKey (ensureKey d rmol.title) rmol.title (fun r =>
        { r with
          indices := r.indices ++
            [List.replicate rmol.confs.length (some (-2))],
          energies := r.energies ++ [List.replicate rmol.confs.length none],
          ref_nconfs := r.ref_nconfs ++ [rmol.confs.length] }), fullQ),
      by simp only [matchStep, hfq], rfl, ?_⟩
    dsimp only
    exact lookupRec_upd_self d rmol.title _
  · intro q hq st' hstep
    cases hfq : findQ qs rmol.title with
    | none =>
      rw [findQ_none_find? hfq] at hq
      cases hq
    | some pair =>
      obtain ⟨qm, rest⟩ := pair
      obtain ⟨-, hfind, pre, hsplit, hpre⟩ := findQ_spec hfq
      have hqq : qm = q := by
        rw [hfind] at hq
        exact Option.some.inj hq
      subst hqq
      cases selfRef with
      | true =>
        have hstep' : matchStep fullQ sdtag true dist cutoff (d, qs) rmol
            = some (modifyKey (ensureKey d rmol.title) rmol.title (fun r =>
              { r with
                energies := r.energies ++ [(get_sd_list qm sdtag).map some],
                indices := r.indices ++
                  [List.replicate rmol.confs.length (some (-1))] }), rest) := by
          simp only [matchStep, hfq, if_true]
        rw [hstep'] at hstep
        have hst : st' = (modifyKey (ensureKey d rmol.title) rmol.title
            (fun r => { r with
              energies := r.energies ++ [(get_sd_list qm sdtag).map some],
              indices := r.indices ++
                [List.replicate rmol.confs.length (some (-1))] }), rest) :=
          (Option.some.inj hstep).symm
    -- report results for the self-reference branch
        subst hst
        refine ⟨⟨pre, hsplit, hpre⟩, List.replicate rmol.confs.length (some (-1)),
          ?_, Or.inl rfl⟩
        dsimp only
        exact lookupRec_upd_self d rmol.title _
      | false =>
        cases hcmp : compare_two_mols rmol qm dist cutoff with
        | none =>
          have : matchStep fullQ sdtag false dist cutoff (d, qs) rmol = none := by
            simp only [matchStep, hfq, if_false, Bool.false_eq_true]
            rw [hcmp]
          rw [this] at hstep
          cases hstep
        | some inds =>
          have hstep' : matchStep fullQ sdtag false dist cutoff (d, qs) rmol
              = some (modifyKey (ensureKey d rmol.title) rmol.title (fun r =>
                { r with
                  energies := r.energies ++ [(get_sd_list qm sdtag).map some],
                  indices := r.indices ++
                    [inds.map (Option.map (fun k : ℕ => (k : ℤ)))] }), rest) := by
            simp only [matchStep, hfq, if_false, Bool.false_eq_true]
            rw [hcmp]
          rw [hstep'] at hstep
          have hst : st' = (modifyKey (ensureKey d rmol.title) rmol.title
              (fun r => { r with
                energies := r.energies ++ [(get_sd_list qm sdtag).map some],
                indices := r.indices ++
                  [inds.map (Option.map (fun k : ℕ => (k : ℤ)))] }), rest) :=
            (Option.some.inj hstep).symm
          subst hst
          refine ⟨⟨pre, hsplit, hpre⟩,
            inds.map (Option.map (fun k : ℕ => (k : ℤ))), ?_,
            Or.inr ⟨inds, rfl, rfl⟩⟩
          dsimp only
          exact lookupRec_upd_self d rmol.title _

/-- Witness for C2: (1) with no title match in the unconsumed stream
(`qs = [A]`, reference molecule `B`), the absent row is recorded and the
stream is reset; (2) with a first match present (`qs = [A]`, reference
molecule `A`, self-referential method), the matched molecule's extracted
energies are recorded. -/
theorem C2_title_search_witness :
    (∃ st', matchStep [molB] "qm" true exDist 1 ([], [molA]) molB
        = some st' ∧
      st'.2 = [molB] ∧
      lookupRec st'.1 molB.title = some
        ⟨((lookupRec [] molB.title).getD ⟨[], [], []⟩).energies ++
            [List.replicate molB.confs.length none],
          ((lookupRec [] molB.title).getD ⟨[], [], []⟩).indices ++
            [List.replicate molB.confs.length (some (-2))],
          ((lookupRec [] molB.title).getD ⟨[], [], []⟩).ref_nconfs ++
            [molB.confs.length]⟩) ∧
    ((∃ pre, [molA] = pre ++ molA :: ([] : List Molecule) ∧
        ∀ p ∈ pre, p.title ≠ molA.title) ∧
      ∃ idxRow, lookupRec
          [("A", (⟨[[some 1]], [[some (-1)]], []⟩ : MolRecord))] molA.title
          = some
          ⟨((lookupRec [] molA.title).getD ⟨[], [], []⟩).energies ++
              [(get_sd_list molA "qm").map some],
            ((lookupRec [] molA.title).getD ⟨[], [], []⟩).indices ++ [idxRow],
            ((lookupRec [] molA.title).getD ⟨[], [], []⟩).ref_nconfs⟩ ∧
        (idxRow = List.replicate molA.confs.length (some (-1)) ∨
          ∃ inds, compare_two_mols molA molA exDist 1 = some inds ∧
            idxRow = inds.map (Option.map (fun k : ℕ => (k : ℤ))))) :=
  ⟨(C2_title_search [molB] "qm" true exDist 1 [] [molA] molB).1 (by decide),
   (C2_title_search [molA] "qm" true exDist 1 [] [molA] molA).2 molA
     (by decide)
     (([("A", (⟨[[some 1]], [[some (-1)]], []⟩ : MolRecord))],
       ([] : List Molecule)) :
       List (String × MolRecord) × List Molecule) (by decide)⟩

/-- Counterexample for C2 as frozen: on the example configuration the query
file `"q"` does contain a molecule titled `B`, yet `match_minima` records
`B` as absent from the query method (index row `[-2]`, energy row `[NaN]`),
because the query generator had been consumed past `B` by the earlier match
of `A` and is only reset after a failed search — so the outcome depends on
the order of molecules in the files, contradicting the claim. -/
theorem C2_counterexample :
    (exFs "q").any (fun q => q.title = "B") = true ∧
    match_minima exFs exDist 1 exCfg = some exDict ∧
    lookupRec exDict "B" = some
      ⟨[[some 2], [none]], [[some (-1)], [some (-2)]], [1]⟩ :=
  ⟨by decide, by decide, by decide⟩

/-! ### Claim C9: index-mapping length invariant -/

lemma IndicesLenInv_update (molsRef : List Molecule)
    (hnodup : (molsRef.map Molecule.title).Nodup)
    (d : List (String × MolRecord)) (rmol : Molecule) (hm : rmol ∈ molsRef)
    (hinv : IndicesLenInv molsRef d) (f : MolRecord → MolRecord)
    (newRow : List (Option ℤ)) (hlen : newRow.length = rmol.confs.length)
    (hf : ∀ r, (f r).indices = r.indices ++ [newRow]) :
    IndicesLenInv molsRef (modifyKey (ensureKey d rmol.title) rmol.title f) := by
  intro rmol' hm' r hr row hrow
  by_cases ht : rmol'.title = rmol.title
  · have heq : rmol' = rmol := List.inj_on_of_nodup_map hnodup hm' hm ht
    subst heq
    rw [lookupRec_upd_self] at hr
    have hreq : r = f ((lookupRec d rmol'.title).getD ⟨[], [], []⟩) :=
      (Option.some.inj hr).symm
    subst hreq
    rw [hf] at hrow
    rcases List.mem_append.mp hrow with hold | hnew
    · cases holk : lookupRec d rmol'.title with
      | none =>
        rw [holk] at hold
        cases hold
      | some r0 =>
        rw [holk] at hold
        exact hinv rmol' hm' r0 holk row hold
    · have : row = newRow := by
        cases hnew with
        | head => rfl
        | tail _ hh => cases hh
      rw [this]
      exact hlen
  · rw [lookupRec_upd_other _ _ _ _ ht] at hr
    exact hinv rmol' hm' r hr row hrow

lemma matchStep_inv (molsRef : List Molecule)
    (hnodup : (molsRef.map Molecule.title).Nodup)
    (fullQ : List Molecule) (sdtag : String) (selfRef : Bool)
    (dist : ℕ → ℕ → ℚ) (cutoff : ℚ)
    (st : List (String × MolRecord) × List Molecule) (rmol : Molecule)
    (hm : rmol ∈ molsRef) (hinv : IndicesLenInv molsRef st.1)
    (st' : List (String × MolRecord) × List Molecule)
    (hstep : matchStep fullQ sdtag selfRef dist cutoff st rmol = some st') :
    IndicesLenInv molsRef st'.1 := by
  cases hfq : findQ st.2 rmol.title with
  | none =>
    simp only [matchStep, hfq] at hstep
    have hst : st'.1 = modifyKey (ensureKey st.1 rmol.title) rmol.title
        (fun r => { r with
          indices := r.indices ++
            [List.replicate rmol.confs.length (some (-2))],
          energies := r.energies ++ [List.replicate rmol.confs.length none],
          ref_nconfs := r.ref_nconfs ++ [rmol.confs.length] }) := by
      rw [← Option.some.inj hstep]
    rw [hst]
    exact IndicesLenInv_update molsRef hnodup st.1 rmol hm hinv _
      (List.replicate rmol.confs.length (some (-2))) (by simp)
      (fun r => rfl)
  | some pair =>
    obtain ⟨qm, rest⟩ := pair
    cases selfRef with
    | true =>
      simp only [matchStep, hfq, if_true] at hstep
      have hst : st'.1 = modifyKey (ensureKey st.1 rmol.title) rmol.title
          (fun r => { r with
            energies := r.energies ++ [(get_sd_list qm sdtag).map some],
            indices := r.indices ++
              [List.replicate rmol.confs.length (some (-1))] }) := by
        rw [← Option.some.inj hstep]
      rw [hst]
      exact IndicesLenInv_update molsRef hnodup st.1 rmol hm hinv _
        (List.replicate rmol.confs.length (some (-1))) (by simp)
        (fun r => rfl)
    | false =>
      cases hcmp : compare_two_mols rmol qm dist cutoff with
      | none =>
        simp only [matchStep, hfq, if_false, Bool.false_eq_true, hcmp]
          at hstep
        cases hstep
      | some inds =>
        simp only [matchStep, hfq, if_false, Bool.false_eq_true, hcmp]
          at hstep
        have hst : st'.1 = modifyKey (ensureKey st.1 rmol.title) rmol.title
            (fun r => { r with
              energies := r.energies ++ [(get_sd_list qm sdtag).map some],
              indices := r.indices ++
                [inds.map (Option.map (fun k : ℕ => (k : ℤ)))] }) := by
          rw [← Option.some.inj hstep]
        rw [hst]
        have hilen : inds.length = rmol.confs.length :=
          (compareConfs_get? qm dist cutoff rmol.confs inds hcmp).1
        exact IndicesLenInv_update molsRef hnodup st.1 rmol hm hinv _
          (inds.map (Option.map (fun k : ℕ => (k : ℤ))))
          (by simp [hilen]) (fun r => rfl)

lemma foldlM_matchStep_inv (molsRef : List Molecule)
    (hnodup : (molsRef.map Molecule.title).Nodup)
    (fullQ : List Molecule) (sdtag : String) (selfRef : Bool)
    (dist : ℕ → ℕ → ℚ) (cutoff : ℚ) :
    ∀ (l : List Molecule), (∀ x ∈ l, x ∈ molsRef) →
      ∀ st, IndicesLenInv molsRef st.1 →
      ∀ st', l.foldlM (matchStep fullQ sdtag selfRef dist cutoff) st
          = some st' →
      IndicesLenInv molsRef st'.1 := by
  intro l
  induction l with
  | nil =>
    intro _ st hinv st' h
    cases h
    exact hinv
  | cons a t ih =>
    intro hsub st hinv st' h
    rw [List.foldlM_cons] at h
    cases hstep : matchStep fullQ sdtag selfRef dist cutoff st a with
    | none =>
      rw [hstep] at h
      cases h
    | some st1 =>
      rw [hstep] at h
      simp only [Option.bind_eq_bind, Option.some_bind] at h
      exact ih (fun x hx => hsub x (List.mem_cons_of_mem a hx)) st1
        (matchStep_inv molsRef hnodup fullQ sdtag selfRef dist cutoff st a
          (hsub a (List.mem_cons_self a t)) hinv st1 hstep) st' h

lemma runMethod_inv (fs : String → List Molecule) (dist : ℕ → ℕ → ℚ)
    (cutoff : ℚ) (sdf_ref : String)
    (hnodup : ((fs sdf_ref).map Molecule.title).Nodup)
    (d0 : List (String × MolRecord)) (cfg : MethodCfg)
    (d' : List (String × MolRecord))
    (hrun : runMethod fs dist cutoff sdf_ref d0 cfg = some d')
    (hinv : IndicesLenInv (fs sdf_ref) d0) :
    IndicesLenInv (fs sdf_ref) d' := by
  unfold runMethod at hrun
  cases hfold : (fs sdf_ref).foldlM
      (matchStep (fs cfg.sdfile) cfg.sdtag (cfg.sdfile = sdf_ref) dist cutoff)
      (d0, fs cfg.sdfile) with
  | none =>
    rw [hfold] at hrun
    cases hrun
  | some st' =>
    rw [hfold] at hrun
    have hd : d' = st'.1 := (Option.some.inj hrun).symm
    rw [hd]
    exact foldlM_matchStep_inv (fs sdf_ref) hnodup (fs cfg.sdfile) cfg.sdtag
      (cfg.sdfile = sdf_ref) dist cutoff (fs sdf_ref) (fun x hx => hx)
      (d0, fs cfg.sdfile) hinv st' hfold

lemma foldlM_methods_inv (fs : String → List Molecule) (dist : ℕ → ℕ → ℚ)
    (cutoff : ℚ) (sdf_ref : String)
    (hnodup : ((fs sdf_ref).map Molecule.title).Nodup) :
    ∀ (cfgs : List MethodCfg) (d0 : List (String × MolRecord)),
      IndicesLenInv (fs sdf_ref) d0 →
      ∀ d', cfgs.foldlM (runMethod fs dist cutoff sdf_ref) d0 = some d' →
      IndicesLenInv (fs sdf_ref) d' := by
  intro cfgs
  induction cfgs with
  | nil =>
    intro d0 hinv d' h
    cases h
    exact hinv
  | cons cfg rest ih =>
    intro d0 hinv d' h
    rw [List.foldlM_cons] at h
    cases hrun : runMethod fs dist cutoff sdf_ref d0 cfg with
    | none =>
      rw [hrun] at h
      cases h
    | some d1 =>
      rw [hrun] at h
      simp only [Option.bind_eq_bind, Option.some_bind] at h
      exact ih d1 (runMethod_inv fs dist cutoff sdf_ref hnodup d0 cfg d1
        hrun hinv) d' h

/-- C9: whenever `match_minima` completes and the reference file's titles are
distinct, every stored index-mapping row of every molecule, for every method
(absent, self-referential or geometry-matched), has exactly that molecule's
reference conformer count as its length. -/
theorem C9_index_mapping_length (fs : String → List Molecule)
    (dist : ℕ → ℕ → ℚ) (cutoff : ℚ) (cfg0 : MethodCfg)
    (cfgs : List MethodCfg) (d : List (String × MolRecord))
    (hrun : match_minima fs dist cutoff (cfg0 :: cfgs) = some d)
    (hnodup : ((fs cfg0.sdfile).map Molecule.title).Nodup) :
    ∀ rmol ∈ fs cfg0.sdfile, ∀ r, lookupRec d rmol.title = some r →
      ∀ row ∈ r.indices, row.length = rmol.confs.length := by
  unfold match_minima at hrun
  have hempty : IndicesLenInv (fs cfg0.sdfile) [] := by
    intro rmol _ r hr
    cases hr
  exact foldlM_methods_inv fs dist cutoff cfg0.sdfile hnodup (cfg0 :: cfgs)
    [] hempty d hrun

/-- Witness for C9 on the example run: molecule `B`'s absent-row for the
query method has length 1, `B`'s reference conformer count. -/
theorem C9_index_mapping_length_witness :
    ([some ((-2) : ℤ)] : List (Option ℤ)).length = molB.confs.length :=
  C9_index_mapping_length exFs exDist 1 ⟨"m0", "r", "qm"⟩ [⟨"m1", "q", "qm"⟩]
    exDict (by decide) (by decide) molB (by decide)
    ⟨[[some 2], [none]], [[some (-1)], [some (-2)]], [1]⟩ (by decide)
    [some (-2)] (by decide)

end MatchMinima
